import Mathlib

/-!
Shallow embedding of the transformation engine of `DialogRasaMigrator.py`
(a Dialogflow-to-Rasa migrator).  Python strings are modelled as `List Char`;
the Python string primitives used by the script (`find`, slicing with
negative indices, `replace`, `startswith`, `endswith`, `in`, `split`,
`max(key=len)`) are modelled by executable functions with Python semantics,
including `find` returning `-1` when the needle is absent.
-/

namespace Migrator

/-- Python strings are modelled as lists of characters. -/
abbrev Str := List Char

/-- Character list of a Lean string literal. -/
def str (s : String) : Str := s.data

/-- The single-quote character (ASCII 39). -/
def sq : Char := Char.ofNat 39

/-- The newline character. -/
def nlC : Char := Char.ofNat 10

/-- The two characters closing an emitted text step: a quote and a newline. -/
def closeQ : Str := [sq, nlC]

/-- The group separator character used in Dialogflow filenames. -/
def dashC : Char := Char.ofNat 45

/-- The namespace separator character used in Rasa intent names. -/
def slashC : Char := Char.ofNat 47

/-- Python slice `s[:i]`: for `i ≥ 0` take the first `i` characters, for
`i < 0` drop the last `-i` characters (clamped at the ends). -/
def pySliceTo (s : Str) (i : Int) : Str :=
  if 0 ≤ i then s.take i.toNat else s.take (s.length - i.natAbs)

/-- Helper for `pyFind`: scan from offset `i`. -/
def pyFindAux : Str → Str → Nat → Int
  | [], needle, i => if needle = [] then (i : Int) else -1
  | c :: rest, needle, i =>
    if needle.isPrefixOf (c :: rest) then (i : Int) else pyFindAux rest needle (i + 1)

/-- Python `s.find(needle)`: index of the first occurrence, or `-1`. -/
def pyFind (s needle : Str) : Int := pyFindAux s needle 0

/-- Python `s.replace(old, new, 1)`: replace the leftmost occurrence only. -/
def replaceFirst : Str → Str → Str → Str
  | [], _, _ => []
  | c :: rest, needle, repl =>
    if needle.isPrefixOf (c :: rest) then repl ++ (c :: rest).drop needle.length
    else c :: replaceFirst rest needle repl

/-- Python `s.replace(old, new)` for a non-empty `old`: replace all
non-overlapping occurrences, scanning left to right. -/
def replaceAll (x needle repl : Str) : Str :=
  match x with
  | [] => []
  | c :: rest =>
    if h : needle ≠ [] ∧ needle.isPrefixOf (c :: rest) then
      repl ++ replaceAll ((c :: rest).drop needle.length) needle repl
    else
      c :: replaceAll rest needle repl
termination_by x.length
decreasing_by
  · have hn : 0 < needle.length := List.length_pos.mpr h.1
    simp only [List.length_drop, List.length_cons]
    omega
  · simp only [List.length_cons]
    omega

/-- `remove_substring` from the source: remove `sub` from the end of `s`
if `s` ends with it (Python `s[:-len(sub)]`). -/
def remove_substring (s sub : Str) : Str :=
  if sub.isSuffixOf s then pySliceTo s (-(sub.length : Int)) else s

/-- `format_text` from the source: normalize quotes and newlines. -/
def format_text (t : Str) : Str :=
  replaceAll
    (replaceAll
      (replaceAll (replaceAll t [sq] [sq]) [Char.ofNat 8220] [Char.ofNat 34])
      [Char.ofNat 8221] [Char.ofNat 34])
    [nlC] [Char.ofNat 32]

/-- Matches the tail of the regular expression `_usersays_.*\.json$`:
the text must end in `.json` and the middle part may not contain a newline
(regex `.` does not match a newline). -/
def tailMatch (t : Str) : Bool :=
  (str ".json").isSuffixOf t && !((t.take (t.length - 5)).contains nlC)

/-- `is_usersays` from the source: `re.search(r'_usersays_.*\.json$', s)`. -/
def is_usersays : Str → Bool
  | [] => false
  | c :: rest =>
    ((str "_usersays_").isPrefixOf (c :: rest) && tailMatch ((c :: rest).drop 10))
      || is_usersays rest

/-- Keys of a Python dict built by repeated insertion: first-occurrence
order, no duplicates.  `seen` accumulates the keys already emitted. -/
def firstDedupAux {α : Type} [DecidableEq α] : List α → List α → List α
  | _, [] => []
  | seen, x :: xs =>
    if x ∈ seen then firstDedupAux seen xs else x :: firstDedupAux (x :: seen) xs

/-- First-occurrence deduplication (Python dict key order). -/
def firstDedup {α : Type} [DecidableEq α] (l : List α) : List α := firstDedupAux [] l

/-- The configured default group marker (`DEFAULT_GROUP = 'OTHER'`). -/
def DEFAULT_GROUP : Str := str "OTHER"

/-- The usersays files among a directory listing (`extract_groups` skips
the rest). -/
def usersays_files (fs : List Str) : List Str := fs.filter is_usersays

/-- One prefix entry per usersays filename containing a `-` separator
(the left-hand side of `filename.split('-', 1)`). -/
def prefix_list (fs : List Str) : List Str :=
  ((usersays_files fs).filter (fun f => f.contains dashC)).map
    (fun f => f.takeWhile (fun c => c != dashC))

/-- Number of usersays filenames without a `-` separator. -/
def no_sep_count (fs : List Str) : Nat :=
  ((usersays_files fs).filter (fun f => !(f.contains dashC))).length

/-- The prefixes kept by `extract_groups`: dict keys whose tally is at
least 2, in insertion order. -/
def base_groups (fs : List Str) : List Str :=
  (firstDedup (prefix_list fs)).filter (fun p => decide (2 ≤ (prefix_list fs).count p))

/-- The final `no_prefix_count` of `extract_groups`: unprefixed filenames
plus one per dict entry whose tally is below 2. -/
def code_ungrouped (fs : List Str) : Nat :=
  no_sep_count fs
    + ((firstDedup (prefix_list fs)).filter
        (fun p => decide ((prefix_list fs).count p < 2))).length

/-- `extract_groups` from the source. -/
def extract_groups (fs : List Str) : List Str :=
  let gs :=
    if 2 ≤ code_ungrouped fs then base_groups fs ++ [DEFAULT_GROUP] else base_groups fs
  if gs.length = 1 ∧ code_ungrouped fs = 0 then [] else gs

/-- Modelled from the spec: the ungrouped tally folds in every prefixed
FILENAME whose prefix occurs fewer than 2 times (the code folds one per
distinct low-count prefix instead). -/
def claim_ungrouped (fs : List Str) : Nat :=
  no_sep_count fs
    + ((prefix_list fs).filter (fun p => decide ((prefix_list fs).count p < 2))).length

/-- Modelled from the spec: the Grouping Analyzer as described in the
claim, differing from `extract_groups` only in how low-count items are
folded into the ungrouped tally. -/
def claim_extract_groups (fs : List Str) : List Str :=
  let gs :=
    if 2 ≤ claim_ungrouped fs then base_groups fs ++ [DEFAULT_GROUP] else base_groups fs
  if gs.length = 1 ∧ claim_ungrouped fs = 0 then [] else gs

/-- Python `max(l, key=len)`: the first element of maximal length. -/
def pyMax (l : List Str) : Str :=
  match l with
  | [] => []
  | x :: xs => xs.foldl (fun a b => if a.length < b.length then b else a) x

/-- `add_group_to_intent_name` from the source, with the global
`INTENT_LIST` passed explicitly. -/
def add_group_to_intent_name (intentList : List Str) (nm : Str) : Str :=
  if intentList.filter (fun g => g.isPrefixOf nm) = [] then
    if DEFAULT_GROUP ∈ intentList then DEFAULT_GROUP ++ [slashC] ++ nm else nm
  else
    replaceFirst nm (pyMax (intentList.filter (fun g => g.isPrefixOf nm)) ++ [dashC])
      (pyMax (intentList.filter (fun g => g.isPrefixOf nm)) ++ [slashC])

/-- The registration step of `generate_nlu` (lines 656-658): append an
intent name unless some already-registered name is a prefix of it. -/
def register_intent (l : List Str) (nm : Str) : List Str :=
  if l.any (fun p => p.isPrefixOf nm) then l else l ++ [nm]

/-- The intents section of the domain document. -/
def intents_content (l : List Str) : Str :=
  str "intents:\n" ++ List.intercalate (str "\n") (l.map (fun i => str "- " ++ i))
    ++ str "\n\n"

/-- Python `s.split('/', 1)[-1]`: the part after the first slash, or the
whole string when there is none. -/
def afsAux : Str → Str
  | [] => []
  | c :: rest => if c = slashC then rest else afsAux rest

/-- See `afsAux`. -/
def after_first_slash (s : Str) : Str :=
  if s.contains slashC then afsAux s else s

/-- `rename_intent` from the source: strip the group, register the short
name, and record the nlu.yml text replacement that the source performs via
`replace_in_file`.  Returns the new intent list, the replacement log, and
the short name. -/
def rename_intent (intents : List Str) (nluSubs : List (Str × Str)) (nm : Str) :
    List Str × List (Str × Str) × Str :=
  let short := after_first_slash nm
  (if intents.any (fun p => p.isPrefixOf short) then intents else intents ++ [short],
   nluSubs ++ [(nm, short)], short)

/-- `rename_response` from the source. -/
def rename_response (respName intentName content : Str) : Str × Str :=
  (str "utter_" ++ intentName, replaceAll content respName (str "utter_" ++ intentName))

/-- `create_new_rule` from the source. -/
def create_new_rule (rules respName intentName : Str) : Str :=
  rules ++ str "\n- rule: Respond to " ++ intentName ++ str "\n  steps:\n  - intent: "
    ++ intentName ++ str "\n  - action: " ++ respName ++ str "\n"

/-- Decimal rendering of a step counter. -/
def natStr (n : Nat) : Str := (Nat.repr n).data

/-- The default single-action rule appended by `generate_rules`. -/
def default_rule (intent : Str) : Str :=
  str "\n- rule: Respond to " ++ intent ++ str "\n  steps:\n  - intent: "
    ++ intent ++ str "\n  - action: utter_" ++ intent ++ str "\n"

/-- Python substring test `needle in hay`. -/
def pyIn : Str → Str → Bool
  | needle, [] => needle.isEmpty
  | needle, c :: rest => needle.isPrefixOf (c :: rest) || pyIn needle rest

/-- The `new_rules` accumulation of `generate_rules`: start from the
rules produced during response normalization and append a default rule for
every intent that does not occur as a substring of that text. -/
def build_new_rules (rc : Str) (intents : List Str) : Str :=
  intents.foldl (fun acc i => if pyIn i rc then acc else acc ++ default_rule i)
    (str "rules:\n" ++ rc)

/-- A Dialogflow rich payload (`message['payload']`); a missing payload is
modelled by both fields `none`. -/
structure Payload where
  buttons : Option (List (Str × Str))
  images : Option (List Str)
  deriving DecidableEq

/-- A Dialogflow response message. -/
structure Message where
  lang : Option Str
  type : Option Str
  speech : Option (List Str)
  payload : Payload
  deriving DecidableEq

/-- The state threaded through response normalization: the accumulated
responses text, the accumulated rules text, the shared intent list, the
log of nlu.yml replacements, and the loop variables of `get_responses`. -/
structure PState where
  responses : Str
  rules : Str
  intents : List Str
  nluSubs : List (Str × Str)
  afterText : Bool
  steps : Nat
  intentName : Str
  responseName : Str
  deriving DecidableEq

/-- The global accumulators visible outside one intent's processing. -/
structure GState where
  responses : Str
  rules : Str
  intents : List Str
  nluSubs : List (Str × Str)
  deriving DecidableEq

/-- One entry of `response_data['responses']`. -/
structure DFResponse where
  messages : List Message
  deriving DecidableEq

/-- One Dialogflow intent file: its filename and its responses list. -/
structure IntentRec where
  filename : Str
  responses : List DFResponse
  deriving DecidableEq

/-- The markup fragment emitted for one button. -/
def btnFrag (b : Str × Str) : Str :=
  str "<br><a href=\"" ++ b.2 ++ str "\">" ++ format_text b.1 ++ str "</a>"

/-- The markup emitted for a button list: one fragment per button. -/
def buttonMarkup (bs : List (Str × Str)) : Str := (bs.map btnFrag).flatten

/-- `process_buttons` from the source. -/
def process_buttons (bs : List (Str × Str)) (s : PState) : PState :=
  let s :=
    if s.afterText then
      { s with responses := pySliceTo s.responses (-2) }
    else
      let s :=
        if s.steps = 0 then
          let r := rename_intent s.intents s.nluSubs s.intentName
          let rr := rename_response s.responseName r.2.2 s.responses
          { s with intents := r.1, nluSubs := r.2.1, intentName := r.2.2,
                   responseName := rr.1, responses := rr.2,
                   rules := create_new_rule s.rules rr.1 r.2.2 }
        else s
      let s := { s with steps := s.steps + 1 }
      let s := { s with
        rules := s.rules ++ str "  - action: " ++ s.responseName ++ str "_"
          ++ natStr s.steps ++ str "\n" }
      { s with
        responses := s.responses ++ str "  " ++ s.responseName ++ str "_"
          ++ natStr s.steps ++ str ":\n  - text: " ++ [sq] }
  let s := { s with
    responses := bs.foldl (fun acc b => acc ++ btnFrag b) s.responses }
  { s with responses := s.responses ++ closeQ, afterText := true }

/-- `process_images` from the source. -/
def process_images (imgs : List Str) (s : PState) : PState :=
  { s with
    responses := imgs.foldl (fun acc u => acc ++ str "    image: \"" ++ u ++ str "\"\n")
      s.responses,
    afterText := false }

/-- Python truthiness of an optional list. -/
def truthyList : Option (List Str) → Bool
  | some (_ :: _) => true
  | _ => false

/-- The body of the message loop in `get_responses`. -/
def processMessage (lang : Str) (s : PState) (m : Message) : PState :=
  if m.lang ≠ some lang then s
  else if m.type = some (str "0") ∧ truthyList m.speech then
    (m.speech.getD []).foldl
      (fun s ex =>
        { s with
          responses := s.responses ++ str "  - text: " ++ [sq] ++ format_text ex ++ closeQ,
          afterText := true }) s
  else if m.type = some (str "4") then
    let s := if m.payload.buttons.isSome then process_buttons (m.payload.buttons.getD []) s
             else s
    if m.payload.images.isSome then process_images (m.payload.images.getD []) s else s
  else s

/-- Fold of `processMessage` over one response's message list. -/
def processMessages (lang : Str) (ms : List Message) (s : PState) : PState :=
  ms.foldl (fun s m => processMessage lang s m) s

/-- Processing of one intent file inside `get_responses`: derive the
names, emit the response header, and walk the messages of
`responses[0]`.  `none` models the IndexError on an empty responses list. -/
def processIntent (lang : Str) (g : GState) (rec : IntentRec) : Option GState :=
  match rec.responses.head? with
  | none => none
  | some resp =>
    let iname := add_group_to_intent_name g.intents (remove_substring rec.filename (str ".json"))
    let rname := str "utter_" ++ iname
    let s0 : PState :=
      { responses := g.responses ++ str "  " ++ rname ++ str ":\n", rules := g.rules,
        intents := g.intents, nluSubs := g.nluSubs, afterText := false, steps := 0,
        intentName := iname, responseName := rname }
    let s := processMessages lang resp.messages s0
    some { responses := s.responses, rules := s.rules, intents := s.intents,
           nluSubs := s.nluSubs }

/-- The merge step of `generate_domain`: splice the generated sections
into the existing document at the `intents:\n` anchor. -/
def generate_domain (existing : Option Str) (intentsC entitiesC responsesC : Str) : Str :=
  let filedata := match existing with
    | some d => d
    | none => str "version: \"3.1\"\n"
  let i := pyFind filedata (str "intents:\n")
  if i = -1 then filedata ++ intentsC ++ entitiesC ++ responsesC
  else pySliceTo filedata i ++ intentsC ++ entitiesC ++ responsesC

/-- The merge step of `generate_nlu`: splice the generated section into
the existing document at the `nlu:\n` anchor.  Note the source uses the
result of `find` unchecked. -/
def generate_nlu (existing newData : Str) : Str :=
  pySliceTo existing (pyFind existing (str "nlu:\n")) ++ newData

/-- The merge step of `generate_rules`: splice `build_new_rules` into the
existing document at the `rules:\n` anchor, or start fresh from a version
header when the document is missing or lacks the anchor. -/
def generate_rules (existing : Option Str) (rc : Str) (intents : List Str) : Str :=
  match existing with
  | none => str "version: \"3.1\"\n" ++ build_new_rules rc intents
  | some d =>
    let i := pyFind d (str "rules:\n")
    if i = -1 then str "version: \"3.1\"\n" ++ build_new_rules rc intents
    else pySliceTo d i ++ build_new_rules rc intents

/-- A text-only message in the configured language. -/
def textMsg (lang : Str) (exs : List Str) : Message :=
  { lang := some lang, type := some (str "0"), speech := some exs,
    payload := { buttons := none, images := none } }

/-- A buttons-only message in the configured language. -/
def buttonsMsg (lang : Str) (bs : List (Str × Str)) : Message :=
  { lang := some lang, type := some (str "4"), speech := none,
    payload := { buttons := some bs, images := none } }

/-- Concrete filename multiset of the example scenario of claim C6. -/
def c6_files : List Str :=
  [str "greet-hello_usersays_es.json", str "greet-hello_usersays_es.json",
   str "greet-hello_usersays_es.json", str "greet-bye_usersays_es.json",
   str "greet-bye_usersays_es.json", str "faq_usersays_es.json"]

/-- Normalization-produced rules text containing a rule for intent
`information` only. -/
def c3_rules_content : Str :=
  create_new_rule (str "") (str "utter_information") (str "information")

/-- A concrete one-button list. -/
def btns1 : List (Str × Str) := [(str "Visit", str "http://x")]

/-- A concrete normalization start state for intent `info`. -/
def s0c : PState :=
  { responses := str "responses:\n  utter_info:\n", rules := str "", intents := [],
    nluSubs := [], afterText := false, steps := 0, intentName := str "info",
    responseName := str "utter_info" }

/-- A concrete global state. -/
def gs0 : GState :=
  { responses := str "responses:\n", rules := str "", intents := [], nluSubs := [] }

/-- A concrete response with one text message. -/
def respA : DFResponse := { messages := [textMsg (str "es") [str "Welcome"]] }

/-- A concrete response with one buttons message. -/
def respB : DFResponse := { messages := [buttonsMsg (str "es") btns1] }

/-! ### Helper lemmas about the Python string primitives -/

theorem pySliceTo_natCast (s : Str) (k : Nat) : pySliceTo s (k : Int) = s.take k := by
  simp [pySliceTo]

theorem pyFindAux_spec (s : Str) : ∀ (n : Str) (i : Nat),
    pyFindAux s n i = -1 ∨
      ∃ j : Nat, pyFindAux s n i = ((i + j : Nat) : Int)
        ∧ n.isPrefixOf (s.drop j) = true
        ∧ ∀ m, m < j → n.isPrefixOf (s.drop m) = false := by
  induction s with
  | nil =>
    intro n i
    by_cases hn : n = []
    · right
      refine ⟨0, by simp [pyFindAux, hn], by simp [hn, List.isPrefixOf], ?_⟩
      intro m hm
      exact absurd hm (by omega)
    · left
      simp [pyFindAux, hn]
  | cons c rest ih =>
    intro n i
    by_cases hp : n.isPrefixOf (c :: rest) = true
    · right
      refine ⟨0, by simp [pyFindAux, hp], by simpa using hp, ?_⟩
      intro m hm
      exact absurd hm (by omega)
    · have hstep : pyFindAux (c :: rest) n i = pyFindAux rest n (i + 1) := by
        simp [pyFindAux, hp]
      rcases ih n (i + 1) with h | ⟨j, hj, hpre, hmin⟩
      · left
        rw [hstep, h]
      · right
        refine ⟨j + 1, ?_, ?_, ?_⟩
        · rw [hstep, hj]
          congr 1
          omega
        · simpa using hpre
        · intro m hm
          cases m with
          | zero =>
            simp only [List.drop_zero]
            revert hp
            cases n.isPrefixOf (c :: rest) <;> simp
          | succ m' =>
            rw [List.drop_succ_cons]
            exact hmin m' (by omega)

theorem pyFind_found (s n : Str) (h : pyFind s n ≠ -1) :
    ∃ k : Nat, pyFind s n = (k : Int)
      ∧ n.isPrefixOf (s.drop k) = true
      ∧ ∀ m, m < k → n.isPrefixOf (s.drop m) = false := by
  rcases pyFindAux_spec s n 0 with h0 | ⟨j, hj, hpre, hmin⟩
  · exact absurd h0 h
  · exact ⟨j, by simpa [pyFind] using hj, hpre, hmin⟩

/-! ### Claim C1 -/

/-- C1: for every pre-existing target document containing its anchor, the
merged output begins with the document's text up to (but not including)
the first occurrence of the anchor, byte-for-byte; this holds for the
domain (`intents:\n`), corpus (`nlu:\n`) and rules (`rules:\n`)
documents. -/
theorem spec_C1_merge_preserves_before_anchor
    (d1 d2 d3 ic ec rc nl rlc : Str) (ints : List Str)
    (h1 : pyFind d1 (str "intents:\n") ≠ -1)
    (h2 : pyFind d2 (str "nlu:\n") ≠ -1)
    (h3 : pyFind d3 (str "rules:\n") ≠ -1) :
    (∃ k : Nat, (str "intents:\n").isPrefixOf (d1.drop k) = true
       ∧ (∀ m, m < k → (str "intents:\n").isPrefixOf (d1.drop m) = false)
       ∧ generate_domain (some d1) ic ec rc = d1.take k ++ ic ++ ec ++ rc)
    ∧ (∃ k : Nat, (str "nlu:\n").isPrefixOf (d2.drop k) = true
       ∧ (∀ m, m < k → (str "nlu:\n").isPrefixOf (d2.drop m) = false)
       ∧ generate_nlu d2 nl = d2.take k ++ nl)
    ∧ (∃ k : Nat, (str "rules:\n").isPrefixOf (d3.drop k) = true
       ∧ (∀ m, m < k → (str "rules:\n").isPrefixOf (d3.drop m) = false)
       ∧ generate_rules (some d3) rlc ints = d3.take k ++ build_new_rules rlc ints) := by
  refine ⟨?_, ?_, ?_⟩
  · rcases pyFind_found d1 (str "intents:\n") h1 with ⟨k, hk, hpre, hmin⟩
    refine ⟨k, hpre, hmin, ?_⟩
    simp only [generate_domain, hk]
    rw [if_neg (by omega), pySliceTo_natCast]
  · rcases pyFind_found d2 (str "nlu:\n") h2 with ⟨k, hk, hpre, hmin⟩
    refine ⟨k, hpre, hmin, ?_⟩
    simp only [generate_nlu, hk]
    rw [pySliceTo_natCast]
  · rcases pyFind_found d3 (str "rules:\n") h3 with ⟨k, hk, hpre, hmin⟩
    refine ⟨k, hpre, hmin, ?_⟩
    simp only [generate_rules, hk]
    rw [if_neg (by omega), pySliceTo_natCast]

/-- Witness for C1 at concrete documents. -/
theorem spec_C1_merge_preserves_before_anchor_w :
    (∃ k : Nat, (str "intents:\n").isPrefixOf ((str "A\nintents:\nOLD").drop k) = true
       ∧ (∀ m, m < k → (str "intents:\n").isPrefixOf ((str "A\nintents:\nOLD").drop m) = false)
       ∧ generate_domain (some (str "A\nintents:\nOLD")) (str "I") (str "E") (str "R")
           = (str "A\nintents:\nOLD").take k ++ str "I" ++ str "E" ++ str "R")
    ∧ (∃ k : Nat, (str "nlu:\n").isPrefixOf ((str "B\nnlu:\nOLD").drop k) = true
       ∧ (∀ m, m < k → (str "nlu:\n").isPrefixOf ((str "B\nnlu:\nOLD").drop m) = false)
       ∧ generate_nlu (str "B\nnlu:\nOLD") (str "N")
           = (str "B\nnlu:\nOLD").take k ++ str "N")
    ∧ (∃ k : Nat, (str "rules:\n").isPrefixOf ((str "C\nrules:\nOLD").drop k) = true
       ∧ (∀ m, m < k → (str "rules:\n").isPrefixOf ((str "C\nrules:\nOLD").drop m) = false)
       ∧ generate_rules (some (str "C\nrules:\nOLD")) (str "RC") []
           = (str "C\nrules:\nOLD").take k ++ build_new_rules (str "RC") []) :=
  spec_C1_merge_preserves_before_anchor (str "A\nintents:\nOLD") (str "B\nnlu:\nOLD")
    (str "C\nrules:\nOLD") (str "I") (str "E") (str "R") (str "N") (str "RC") []
    (by decide) (by decide) (by decide)

/-! ### Claim C2 -/

/-- C2 counterexample: with the anchor absent, the corpus merger does not
preserve the existing text (`abc` loses its final byte), and the rules
merger discards the existing text entirely. -/
theorem spec_C2_absent_anchor_cex :
    generate_nlu (str "abc") (str "nlu:\nNEW") ≠ str "abc" ++ str "nlu:\nNEW"
    ∧ generate_rules (some (str "abc")) (str "NEW") []
        ≠ str "abc" ++ build_new_rules (str "NEW") [] := by
  constructor
  · decide
  · decide

/-- C2 amended: when the anchor is absent, the domain merger appends the
generated sections at the end of the intact existing text, the corpus
merger emits the existing text minus its final character followed by the
new section, and the rules merger discards the existing text, emitting a
version header followed by the new rules. -/
theorem spec_C2_absent_anchor_behavior
    (d1 d2 d3 ic ec rc nl rlc : Str) (ints : List Str)
    (h1 : pyFind d1 (str "intents:\n") = -1)
    (h2 : pyFind d2 (str "nlu:\n") = -1)
    (h3 : pyFind d3 (str "rules:\n") = -1) :
    generate_domain (some d1) ic ec rc = d1 ++ ic ++ ec ++ rc
    ∧ generate_nlu d2 nl = d2.take (d2.length - 1) ++ nl
    ∧ generate_rules (some d3) rlc ints
        = str "version: \"3.1\"\n" ++ build_new_rules rlc ints := by
  refine ⟨?_, ?_, ?_⟩
  · simp [generate_domain, h1]
  · simp only [generate_nlu, h2, pySliceTo]
    rw [if_neg (by decide)]
    rfl
  · simp [generate_rules, h3]

/-- Witness for the amended C2 at concrete documents. -/
theorem spec_C2_absent_anchor_behavior_w :
    generate_domain (some (str "abc")) (str "I") (str "E") (str "R")
        = str "abc" ++ str "I" ++ str "E" ++ str "R"
    ∧ generate_nlu (str "abc") (str "N")
        = (str "abc").take ((str "abc").length - 1) ++ str "N"
    ∧ generate_rules (some (str "abc")) (str "RC") []
        = str "version: \"3.1\"\n" ++ build_new_rules (str "RC") [] :=
  spec_C2_absent_anchor_behavior (str "abc") (str "abc") (str "abc") (str "I") (str "E")
    (str "R") (str "N") (str "RC") [] (by decide) (by decide) (by decide)

/-! ### Claim C3 -/

theorem build_foldl (rc : Str) : ∀ (ints : List Str) (acc : Str),
    ints.foldl (fun acc i => if pyIn i rc then acc else acc ++ default_rule i) acc
      = acc ++ ((ints.filter (fun i => !(pyIn i rc))).map default_rule).flatten := by
  intro ints
  induction ints with
  | nil => intro acc; simp
  | cons i is ih =>
    intro acc
    by_cases h : pyIn i rc = true
    · simp [h, ih]
    · have hb : pyIn i rc = false := by
        revert h
        cases pyIn i rc <;> simp
      simp [hb, ih, List.append_assoc]

/-- C3 counterexample: with normalization rules covering only intent
`information`, and IntentList containing the uncovered intent `info`, the
Rule Synthesizer emits no RuleBlock for `info` (the trigger line
`- intent: info` followed by a newline never occurs in the output),
because the coverage check is a plain substring test and `info` occurs
inside `information`. -/
theorem spec_C3_substring_skip_cex :
    build_new_rules c3_rules_content [str "info"] = str "rules:\n" ++ c3_rules_content
    ∧ pyIn (str "- intent: info\n")
        (build_new_rules c3_rules_content [str "info"]) = false := by
  constructor
  · decide
  · decide

/-- C3 amended: the Rule Synthesizer appends exactly one default
single-action RuleBlock (mapping the intent to `utter_<intent>`) for each
IntentList entry that does not occur as a substring of the
normalization-produced rules text, in list order; entries occurring as a
substring — in particular every intent that already has a
normalization-produced RuleBlock — are skipped, so normalization rules
take precedence and no intent receives a second RuleBlock. -/
theorem spec_C3_default_rules_characterization (rc : Str) (ints : List Str) :
    build_new_rules rc ints
      = str "rules:\n" ++ rc
        ++ ((ints.filter (fun i => !(pyIn i rc))).map default_rule).flatten := by
  unfold build_new_rules
  exact build_foldl rc ints _

/-! ### Claim C5 -/

theorem firstDedupAux_mem {α : Type} [DecidableEq α] :
    ∀ (xs seen : List α) (a : α), a ∈ firstDedupAux seen xs ↔ a ∈ xs ∧ a ∉ seen := by
  intro xs
  induction xs with
  | nil =>
    intro seen a
    simp [firstDedupAux]
  | cons x xs ih =>
    intro seen a
    by_cases hx : x ∈ seen
    · rw [firstDedupAux, if_pos hx, ih]
      constructor
      · rintro ⟨ha, hs⟩
        exact ⟨List.mem_cons_of_mem _ ha, hs⟩
      · rintro ⟨ha, hs⟩
        rcases List.mem_cons.mp ha with rfl | ha
        · exact absurd hx hs
        · exact ⟨ha, hs⟩
    · rw [firstDedupAux, if_neg hx]
      constructor
      · intro h
        rcases List.mem_cons.mp h with rfl | h
        · exact ⟨List.mem_cons_self _ _, hx⟩
        · have h2 := (ih _ a).mp h
          exact ⟨List.mem_cons_of_mem _ h2.1, fun hs => h2.2 (List.mem_cons_of_mem _ hs)⟩
      · rintro ⟨ha, hs⟩
        rcases List.mem_cons.mp ha with rfl | ha
        · exact List.mem_cons_self _ _
        · by_cases hax : a = x
          · subst hax
            exact List.mem_cons_self _ _
          · refine List.mem_cons_of_mem _ ((ih _ a).mpr ⟨ha, fun hm => ?_⟩)
            rcases List.mem_cons.mp hm with h | h
            · exact hax h
            · exact hs h

theorem firstDedupAux_nodup {α : Type} [DecidableEq α] :
    ∀ (xs seen : List α), (firstDedupAux seen xs).Nodup := by
  intro xs
  induction xs with
  | nil =>
    intro seen
    simp [firstDedupAux]
  | cons x xs ih =>
    intro seen
    by_cases hx : x ∈ seen
    · rw [firstDedupAux, if_pos hx]
      exact ih seen
    · rw [firstDedupAux, if_neg hx]
      refine List.nodup_cons.mpr ⟨fun hmem => ?_, ih (x :: seen)⟩
      exact ((firstDedupAux_mem xs (x :: seen) x).mp hmem).2 (List.mem_cons_self _ _)

theorem firstDedup_mem {α : Type} [DecidableEq α] (l : List α) (a : α) :
    a ∈ firstDedup l ↔ a ∈ l := by
  rw [firstDedup, firstDedupAux_mem]
  simp

theorem firstDedup_nodup {α : Type} [DecidableEq α] (l : List α) :
    (firstDedup l).Nodup :=
  firstDedupAux_nodup l []

theorem nodup_of_count_le_one {α : Type} [BEq α] [LawfulBEq α] :
    ∀ {l : List α}, (∀ x, l.count x ≤ 1) → l.Nodup := by
  intro l
  induction l with
  | nil =>
    intro _
    simp
  | cons a as ih =>
    intro h
    refine List.nodup_cons.mpr ⟨fun hmem => ?_, ih fun x => ?_⟩
    · have h1 := h a
      rw [List.count_cons_self] at h1
      have h2 : 0 < as.count a := List.count_pos_iff.mpr hmem
      omega
    · have h1 := h x
      rw [List.count_cons] at h1
      omega

theorem low_count_length {α : Type} [BEq α] [LawfulBEq α] [DecidableEq α] (l : List α) :
    ((firstDedup l).filter (fun p => decide (l.count p < 2))).length
      = (l.filter (fun p => decide (l.count p < 2))).length := by
  have nd1 : ((firstDedup l).filter (fun p => decide (l.count p < 2))).Nodup :=
    (firstDedup_nodup l).filter _
  have nd2 : (l.filter (fun p => decide (l.count p < 2))).Nodup := by
    refine nodup_of_count_le_one fun x => ?_
    by_cases hx : x ∈ l.filter (fun p => decide (l.count p < 2))
    · have hp := (List.mem_filter.mp hx).2
      have hlt : l.count x < 2 := of_decide_eq_true hp
      calc (l.filter (fun p => decide (l.count p < 2))).count x
          = l.count x := List.count_filter hp
        _ ≤ 1 := by omega
    · rw [List.count_eq_zero.mpr hx]
      omega
  have hperm := (List.perm_ext_iff_of_nodup nd1 nd2).mpr (fun a => by
    simp only [List.mem_filter, firstDedup_mem])
  exact hperm.length_eq

theorem code_ungrouped_eq (fs : List Str) : code_ungrouped fs = claim_ungrouped fs := by
  unfold code_ungrouped claim_ungrouped
  rw [low_count_length]

/-- C5: the Grouping Analyzer coincides with the claim's description:
a prefix is a recognized group iff it occurs at least twice among prefixed
usersays filenames; every prefixed filename with a below-2 tally is folded
into the ungrouped count; the default-group marker is appended iff that
count is at least 2; and a single resulting group with a zero ungrouped
count yields the empty group list.  (The code folds one unit per distinct
low-tally prefix, which agrees because a below-2 tally is exactly 1.) -/
theorem spec_C5_grouping_characterization (fs : List Str) :
    extract_groups fs = claim_extract_groups fs := by
  unfold extract_groups claim_extract_groups
  rw [code_ungrouped_eq]

/-! ### Claim C6 -/

/-- C6: on the training-phrase filename multiset `greet-hello` (3 times),
`greet-bye` (2 times), `faq` (once, no separator), the Grouping Analyzer
returns exactly the group list `["greet"]` (no default group), the Name
Resolver maps `greet-hello` to `greet/hello`, and `faq` passes through
unchanged. -/
theorem spec_C6_example_scenario :
    extract_groups c6_files = [str "greet"]
    ∧ add_group_to_intent_name (extract_groups c6_files) (str "greet-hello")
        = str "greet/hello"
    ∧ add_group_to_intent_name (extract_groups c6_files) (str "faq") = str "faq" := by
  refine ⟨by decide, by decide, by decide⟩

/-! ### Claim C9 -/

/-- C9: the responses section generated for one intent record depends only
on the record's first responses entry: two records with the same filename
and equal first entries produce identical output states, whatever the
later entries are. -/
theorem spec_C9_only_first_response_used (lang : Str) (g : GState) (fn : Str)
    (rs1 rs2 : List DFResponse) (h : rs1.head? = rs2.head?) :
    processIntent lang g ⟨fn, rs1⟩ = processIntent lang g ⟨fn, rs2⟩ := by
  cases rs1 with
  | nil =>
    cases rs2 with
    | nil => rfl
    | cons b bs => simp at h
  | cons a as =>
    cases rs2 with
    | nil => simp at h
    | cons b bs =>
      simp only [List.head?_cons, Option.some.injEq] at h
      subst h
      rfl

/-- Witness for C9: two concrete records sharing their first responses
entry but differing afterwards. -/
theorem spec_C9_only_first_response_used_w :
    processIntent (str "es") gs0 ⟨str "info.json", [respA]⟩
      = processIntent (str "es") gs0 ⟨str "info.json", [respA, respB]⟩ :=
  spec_C9_only_first_response_used (str "es") gs0 (str "info.json") [respA]
    [respA, respB] rfl

/-! ### Claim C10 -/

/-- C10: IntentList starts as the recognized groups, and registration
appends an identifier only when no registered identifier is a prefix of
it; hence for an intent whose namespaced identifier begins with a
recognized group, registration leaves IntentList unchanged, and both the
domain intents section and the synthesized default rules are computed from
the unchanged list (referencing the group, not the grouped intent). -/
theorem spec_C10_group_registration_invariant (fs : List Str) (nm rc : Str)
    (h : (extract_groups fs).any (fun p => p.isPrefixOf nm) = true) :
    register_intent (extract_groups fs) nm = extract_groups fs
    ∧ intents_content (register_intent (extract_groups fs) nm)
        = intents_content (extract_groups fs)
    ∧ build_new_rules rc (register_intent (extract_groups fs) nm)
        = build_new_rules rc (extract_groups fs) := by
  have hr : register_intent (extract_groups fs) nm = extract_groups fs := by
    unfold register_intent
    rw [if_pos h]
  exact ⟨hr, by rw [hr], by rw [hr]⟩

/-- Witness for C10: the grouped intent `greet/hello` is not registered
because the group `greet` is already present. -/
theorem spec_C10_group_registration_invariant_w :
    register_intent (extract_groups c6_files) (str "greet/hello") = extract_groups c6_files
    ∧ intents_content (register_intent (extract_groups c6_files) (str "greet/hello"))
        = intents_content (extract_groups c6_files)
    ∧ build_new_rules (str "") (register_intent (extract_groups c6_files) (str "greet/hello"))
        = build_new_rules (str "") (extract_groups c6_files) :=
  spec_C10_group_registration_invariant c6_files (str "greet/hello") (str "") (by decide)

/-! ### Claim C7 -/

theorem pyMax_foldl_mem : ∀ (xs : List Str) (a : Str),
    xs.foldl (fun a b => if a.length < b.length then b else a) a ∈ a :: xs := by
  intro xs
  induction xs with
  | nil =>
    intro a
    simp
  | cons x xs ih =>
    intro a
    have hstep := ih (if a.length < x.length then x else a)
    rcases List.mem_cons.mp hstep with h | h
    · rw [List.foldl_cons, h]
      by_cases hc : a.length < x.length
      · simp [hc]
      · simp [hc]
    · exact List.mem_cons_of_mem _ (List.mem_cons_of_mem _ h)

theorem pyMax_foldl_le : ∀ (xs : List Str) (a y : Str), y ∈ a :: xs →
    y.length ≤ (xs.foldl (fun a b => if a.length < b.length then b else a) a).length := by
  intro xs
  induction xs with
  | nil =>
    intro a y hy
    rcases List.mem_cons.mp hy with rfl | h
    · simp
    · simp at h
  | cons x xs ih =>
    intro a y hy
    rw [List.foldl_cons]
    rcases List.mem_cons.mp hy with rfl | hy2
    · refine le_trans ?_ (ih _ _ (List.mem_cons_self _ _))
      by_cases hc : y.length < x.length
      · rw [if_pos hc]
        omega
      · rw [if_neg hc]
    · rcases List.mem_cons.mp hy2 with rfl | hy3
      · refine le_trans ?_ (ih _ _ (List.mem_cons_self _ _))
        by_cases hc : a.length < y.length
        · rw [if_pos hc]
        · rw [if_neg hc]
          omega
      · exact ih _ y (List.mem_cons_of_mem _ hy3)

theorem pyMax_eq_of_unique (l : List Str) (u : Str) (hu : u ∈ l)
    (huniq : ∀ y ∈ l, y ≠ u → y.length < u.length) : pyMax l = u := by
  cases l with
  | nil => simp at hu
  | cons x xs =>
    have hmem : pyMax (x :: xs) ∈ x :: xs := pyMax_foldl_mem xs x
    by_cases he : pyMax (x :: xs) = u
    · exact he
    · have hlt : (pyMax (x :: xs)).length < u.length := huniq _ hmem he
      have hle : u.length ≤ (pyMax (x :: xs)).length := pyMax_foldl_le xs x u hu
      omega

/-- C7: among all registered names that are a literal prefix of the raw
identifier, the Name Resolver rewrites the first `<group>-` occurrence to
`<group>/` for the longest match (stated for a unique longest match, ties
being flagged as unspecified); when no name matches, it prepends
`OTHER/` exactly when the default marker is registered, and otherwise
passes the identifier through unchanged. -/
theorem spec_C7_name_resolution_cases (reg : List Str) (nm u : Str) :
    ((u ∈ reg.filter (fun g => g.isPrefixOf nm)
        ∧ ∀ y ∈ reg.filter (fun g => g.isPrefixOf nm), y ≠ u → y.length < u.length) →
      add_group_to_intent_name reg nm = replaceFirst nm (u ++ [dashC]) (u ++ [slashC]))
    ∧ (reg.filter (fun g => g.isPrefixOf nm) = [] → DEFAULT_GROUP ∈ reg →
      add_group_to_intent_name reg nm = DEFAULT_GROUP ++ [slashC] ++ nm)
    ∧ (reg.filter (fun g => g.isPrefixOf nm) = [] → DEFAULT_GROUP ∉ reg →
      add_group_to_intent_name reg nm = nm) := by
  refine ⟨?_, ?_, ?_⟩
  · rintro ⟨hu, huniq⟩
    have hne : reg.filter (fun g => g.isPrefixOf nm) ≠ [] := by
      intro hemp
      rw [hemp] at hu
      simp at hu
    have hmax := pyMax_eq_of_unique _ u hu huniq
    unfold add_group_to_intent_name
    rw [if_neg hne, hmax]
  · intro hemp hdef
    unfold add_group_to_intent_name
    rw [if_pos hemp, if_pos hdef]
  · intro hemp hdef
    unfold add_group_to_intent_name
    rw [if_pos hemp, if_neg hdef]

/-- Witness for C7: registry `["greet"]`, identifier `greet-hello`,
longest (unique) match `greet`. -/
theorem spec_C7_name_resolution_cases_w :
    add_group_to_intent_name [str "greet"] (str "greet-hello") = str "greet/hello" := by
  have h := (spec_C7_name_resolution_cases [str "greet"] (str "greet-hello") (str "greet")).1
    ⟨by decide, by decide⟩
  rw [h]
  decide

/-! ### Claim C8 -/

theorem replaceFirst_decomp : ∀ (x n r : Str),
    replaceFirst x n r = x ∨
      ∃ a b, x = a ++ n ++ b ∧ replaceFirst x n r = a ++ r ++ b := by
  intro x
  induction x with
  | nil =>
    intro n r
    left
    rfl
  | cons c rest ih =>
    intro n r
    by_cases hp : n.isPrefixOf (c :: rest) = true
    · right
      obtain ⟨t, ht⟩ : n <+: c :: rest := List.isPrefixOf_iff_prefix.mp hp
      refine ⟨[], t, by rw [← ht]; simp, ?_⟩
      simp only [replaceFirst]
      rw [if_pos hp, ← ht, List.drop_left]
      simp
    · rcases ih n r with h | ⟨a, b, hx, hr⟩
      · left
        simp only [replaceFirst]
        rw [if_neg hp, h]
      · right
        refine ⟨c :: a, b, by rw [hx]; simp, ?_⟩
        simp only [replaceFirst]
        rw [if_neg hp, hr]
        simp

theorem pref_replaceFirst (g x : Str) (d e : Char) (h : g <+: x) :
    g <+: replaceFirst x (g ++ [d]) (g ++ [e]) := by
  rcases replaceFirst_decomp x (g ++ [d]) (g ++ [e]) with hr | ⟨a, b, hx, hr⟩
  · rw [hr]
    exact h
  · rw [hr]
    by_cases hle : g.length ≤ a.length
    · have ha : a <+: x := ⟨(g ++ [d]) ++ b, by rw [hx]; simp [List.append_assoc]⟩
      have hga : g <+: a := List.prefix_of_prefix_length_le h ha hle
      exact hga.trans ⟨(g ++ [e]) ++ b, by simp [List.append_assoc]⟩
    · have ha : a <+: x := ⟨(g ++ [d]) ++ b, by rw [hx]; simp [List.append_assoc]⟩
      have hag : a <+: g := List.prefix_of_prefix_length_le ha h (by omega)
      obtain ⟨t, htg⟩ := hag
      obtain ⟨s, hsx⟩ := h
      have hts : t ++ s = (g ++ [d]) ++ b := by
        have hcat : a ++ (t ++ s) = a ++ ((g ++ [d]) ++ b) := by
          rw [← List.append_assoc, htg, hsx, hx]
          simp [List.append_assoc]
        exact List.append_cancel_left hcat
      have hglen : t.length ≤ g.length := by
        have hlen := congrArg List.length htg
        simp at hlen
        omega
      have htg2 : t <+: g := by
        refine List.prefix_of_prefix_length_le ⟨s, hts⟩ ?_ hglen
        exact ⟨[d] ++ b, by simp [List.append_assoc]⟩
      have hstep : t <+: (g ++ [e]) ++ b :=
        htg2.trans ⟨[e] ++ b, by simp [List.append_assoc]⟩
      have hstep2 : a ++ t <+: a ++ ((g ++ [e]) ++ b) :=
        (List.prefix_append_right_inj a).mpr hstep
      rw [htg] at hstep2
      rw [List.append_assoc]
      exact hstep2

/-- C8: on an identifier on which resolution leaves no registered name as
a prefix of the resolved form, the Name Resolver is idempotent: resolving
twice yields the same string as resolving once. -/
theorem spec_C8_resolver_idempotent (reg : List Str) (nm : Str)
    (h : reg.filter (fun g => g.isPrefixOf (add_group_to_intent_name reg nm)) = []) :
    add_group_to_intent_name reg (add_group_to_intent_name reg nm)
      = add_group_to_intent_name reg nm := by
  have hfilter_nm : reg.filter (fun g => g.isPrefixOf nm) = [] := by
    by_contra hne
    have hmem : pyMax (reg.filter (fun g => g.isPrefixOf nm))
        ∈ reg.filter (fun g => g.isPrefixOf nm) := by
      cases hmatched : reg.filter (fun g => g.isPrefixOf nm) with
      | nil => exact absurd hmatched hne
      | cons x xs =>
        have hm := pyMax_foldl_mem xs x
        simpa [pyMax] using hm
    have hgreg : pyMax (reg.filter (fun g => g.isPrefixOf nm)) ∈ reg :=
      (List.mem_filter.mp hmem).1
    have hgpre := (List.mem_filter.mp hmem).2
    have hres : add_group_to_intent_name reg nm
        = replaceFirst nm (pyMax (reg.filter (fun g => g.isPrefixOf nm)) ++ [dashC])
            (pyMax (reg.filter (fun g => g.isPrefixOf nm)) ++ [slashC]) := by
      unfold add_group_to_intent_name
      rw [if_neg hne]
    have hpre2 : pyMax (reg.filter (fun g => g.isPrefixOf nm))
        <+: add_group_to_intent_name reg nm := by
      rw [hres]
      exact pref_replaceFirst _ nm dashC slashC (List.isPrefixOf_iff_prefix.mp hgpre)
    have hcontra : pyMax (reg.filter (fun g => g.isPrefixOf nm))
        ∈ reg.filter (fun g => g.isPrefixOf (add_group_to_intent_name reg nm)) :=
      List.mem_filter.mpr ⟨hgreg, List.isPrefixOf_iff_prefix.mpr hpre2⟩
    rw [h] at hcontra
    simp at hcontra
  have hdef : DEFAULT_GROUP ∉ reg := by
    intro hdm
    have hres : add_group_to_intent_name reg nm = DEFAULT_GROUP ++ [slashC] ++ nm := by
      unfold add_group_to_intent_name
      rw [if_pos hfilter_nm, if_pos hdm]
    have hpre2 : DEFAULT_GROUP <+: add_group_to_intent_name reg nm := by
      rw [hres, List.append_assoc]
      exact List.prefix_append _ _
    have hcontra : DEFAULT_GROUP
        ∈ reg.filter (fun g => g.isPrefixOf (add_group_to_intent_name reg nm)) :=
      List.mem_filter.mpr ⟨hdm, List.isPrefixOf_iff_prefix.mpr hpre2⟩
    rw [h] at hcontra
    simp at hcontra
  have hpass : add_group_to_intent_name reg nm = nm := by
    unfold add_group_to_intent_name
    rw [if_pos hfilter_nm, if_neg hdef]
  rw [hpass] at h ⊢
  unfold add_group_to_intent_name
  rw [if_pos h, if_neg hdef]

/-- Witness for C8: registry `["greet"]`, identifier `faq`. -/
theorem spec_C8_resolver_idempotent_w :
    add_group_to_intent_name [str "greet"] (add_group_to_intent_name [str "greet"] (str "faq"))
      = add_group_to_intent_name [str "greet"] (str "faq") :=
  spec_C8_resolver_idempotent [str "greet"] (str "faq") (by decide)

/-! ### Claim C4 -/

theorem btn_foldl : ∀ (bs : List (Str × Str)) (acc : Str),
    bs.foldl (fun acc b => acc ++ btnFrag b) acc = acc ++ buttonMarkup bs := by
  intro bs
  induction bs with
  | nil =>
    intro acc
    simp [buttonMarkup]
  | cons b bs ih =>
    intro acc
    simp [buttonMarkup, ih, List.append_assoc]

theorem slice_neg2 (A : Str) : pySliceTo (A ++ closeQ) (-2) = A := by
  rw [pySliceTo, if_neg (by decide)]
  have h1 : (A ++ closeQ).length - Int.natAbs (-2) = A.length := by
    simp [closeQ]
  rw [h1, List.take_left]

theorem replaceAll_self_aux : ∀ (L : Nat) (x n : Str), x.length ≤ L → replaceAll x n n = x := by
  intro L
  induction L with
  | zero =>
    intro x n hx
    cases x with
    | nil => simp [replaceAll]
    | cons c rest => simp at hx
  | succ L ih =>
    intro x n hx
    cases x with
    | nil => simp [replaceAll]
    | cons c rest =>
      by_cases h : n ≠ [] ∧ n.isPrefixOf (c :: rest) = true
      · obtain ⟨t, ht⟩ : n <+: c :: rest := List.isPrefixOf_iff_prefix.mp h.2
        have hdrop : (c :: rest).drop n.length = t := by
          rw [← ht, List.drop_left]
        have hlen := congrArg List.length ht
        simp only [List.length_append, List.length_cons] at hlen
        have hn : 0 < n.length := List.length_pos.mpr h.1
        have hxl : rest.length + 1 ≤ L + 1 := by simpa using hx
        rw [replaceAll, dif_pos h, hdrop, ih t n (by omega), ht]
      · rw [replaceAll, dif_neg h]
        have hxl : rest.length + 1 ≤ L + 1 := by simpa using hx
        rw [ih rest n (by omega)]

/-- Python `s.replace(old, old)` is the identity. -/
theorem replaceAll_self (x n : Str) : replaceAll x n n = x :=
  replaceAll_self_aux x.length x n le_rfl

theorem processMessage_text (lang t : Str) (s : PState) :
    processMessage lang s (textMsg lang [t])
      = { s with
          responses := s.responses ++ str "  - text: " ++ [sq] ++ format_text t ++ closeQ,
          afterText := true } := by
  simp [processMessage, textMsg, truthyList]

theorem processMessage_buttons_after (lang : Str) (bs : List (Str × Str)) (s : PState)
    (h : s.afterText = true) :
    processMessage lang s (buttonsMsg lang bs)
      = { s with
          responses := pySliceTo s.responses (-2) ++ buttonMarkup bs ++ closeQ,
          afterText := true } := by
  simp [processMessage, buttonsMsg, truthyList, process_buttons, h, btn_foldl]

theorem processMessage_buttons_fresh (lang iname : Str) (bs : List (Str × Str)) (s : PState)
    (hA : s.afterText = false) (hS : s.steps = 0) (hI : s.intentName = iname)
    (hns : iname.contains slashC = false) (hR : s.responseName = str "utter_" ++ iname) :
    processMessage lang s (buttonsMsg lang bs)
      = { s with
          responses := s.responses ++ str "  " ++ (str "utter_" ++ iname) ++ str "_"
            ++ natStr 1 ++ str ":\n  - text: " ++ [sq] ++ buttonMarkup bs ++ closeQ,
          rules := s.rules ++ str "\n- rule: Respond to " ++ iname
            ++ str "\n  steps:\n  - intent: " ++ iname ++ str "\n  - action: "
            ++ (str "utter_" ++ iname) ++ str "\n" ++ str "  - action: "
            ++ (str "utter_" ++ iname) ++ str "_" ++ natStr 1 ++ str "\n",
          intents := if s.intents.any (fun p => p.isPrefixOf iname) then s.intents
                     else s.intents ++ [iname],
          nluSubs := s.nluSubs ++ [(iname, iname)],
          intentName := iname,
          responseName := str "utter_" ++ iname,
          steps := 1,
          afterText := true } := by
  have hns2 : slashC ∉ iname := by simpa using hns
  simp [processMessage, buttonsMsg, truthyList, process_buttons, rename_intent,
        rename_response, create_new_rule, after_first_slash, hA, hS, hI, hns2, hR,
        replaceAll_self, btn_foldl]

/-- C4: for a matched-language payload sequence `[Text, Buttons]` the
Response Normalizer merges the button markup (one fragment per button,
`buttonMarkup`) into the already-emitted text step, creating no new
sub-block and leaving the rules untouched; for a sequence beginning with
Buttons (`[Buttons]` or `[Buttons, Text]`) it creates exactly one new
sub-block named `<response_id>_1` holding the markup, and exactly one
RuleBlock whose two actions are the base response identifier and
`<response_id>_1`. -/
theorem spec_C4_button_normalization (lang t iname : Str) (bs : List (Str × Str)) (s0 : PState)
    (hA : s0.afterText = false) (hS : s0.steps = 0) (hI : s0.intentName = iname)
    (hns : iname.contains slashC = false) (hR : s0.responseName = str "utter_" ++ iname) :
    ((processMessages lang [textMsg lang [t], buttonsMsg lang bs] s0).responses
        = s0.responses ++ str "  - text: " ++ [sq] ++ format_text t ++ buttonMarkup bs ++ closeQ
      ∧ (processMessages lang [textMsg lang [t], buttonsMsg lang bs] s0).rules = s0.rules
      ∧ (processMessages lang [textMsg lang [t], buttonsMsg lang bs] s0).steps = s0.steps
      ∧ (processMessages lang [textMsg lang [t], buttonsMsg lang bs] s0).responseName
          = s0.responseName)
    ∧ ((processMessages lang [buttonsMsg lang bs] s0).responses
        = s0.responses ++ str "  " ++ (str "utter_" ++ iname) ++ str "_" ++ natStr 1
            ++ str ":\n  - text: " ++ [sq] ++ buttonMarkup bs ++ closeQ
      ∧ (processMessages lang [buttonsMsg lang bs] s0).rules
        = s0.rules ++ str "\n- rule: Respond to " ++ iname ++ str "\n  steps:\n  - intent: "
            ++ iname ++ str "\n  - action: " ++ (str "utter_" ++ iname) ++ str "\n"
            ++ str "  - action: " ++ (str "utter_" ++ iname) ++ str "_" ++ natStr 1 ++ str "\n"
      ∧ (processMessages lang [buttonsMsg lang bs] s0).steps = 1)
    ∧ ((processMessages lang [buttonsMsg lang bs, textMsg lang [t]] s0).responses
        = s0.responses ++ str "  " ++ (str "utter_" ++ iname) ++ str "_" ++ natStr 1
            ++ str ":\n  - text: " ++ [sq] ++ buttonMarkup bs ++ closeQ
            ++ str "  - text: " ++ [sq] ++ format_text t ++ closeQ
      ∧ (processMessages lang [buttonsMsg lang bs, textMsg lang [t]] s0).rules
        = s0.rules ++ str "\n- rule: Respond to " ++ iname ++ str "\n  steps:\n  - intent: "
            ++ iname ++ str "\n  - action: " ++ (str "utter_" ++ iname) ++ str "\n"
            ++ str "  - action: " ++ (str "utter_" ++ iname) ++ str "_" ++ natStr 1
            ++ str "\n") := by
  have eA : processMessages lang [textMsg lang [t], buttonsMsg lang bs] s0
      = { s0 with
          responses := s0.responses ++ str "  - text: " ++ [sq] ++ format_text t
            ++ buttonMarkup bs ++ closeQ,
          afterText := true } := by
    show processMessage lang (processMessage lang s0 (textMsg lang [t])) (buttonsMsg lang bs) = _
    rw [processMessage_text, processMessage_buttons_after lang bs _ rfl,
        show ({ s0 with
            responses := s0.responses ++ str "  - text: " ++ [sq] ++ format_text t ++ closeQ,
            afterText := true } : PState).responses
          = s0.responses ++ str "  - text: " ++ [sq] ++ format_text t ++ closeQ from rfl,
        slice_neg2]
  have eB : processMessages lang [buttonsMsg lang bs] s0
      = { s0 with
          responses := s0.responses ++ str "  " ++ (str "utter_" ++ iname) ++ str "_"
            ++ natStr 1 ++ str ":\n  - text: " ++ [sq] ++ buttonMarkup bs ++ closeQ,
          rules := s0.rules ++ str "\n- rule: Respond to " ++ iname
            ++ str "\n  steps:\n  - intent: " ++ iname ++ str "\n  - action: "
            ++ (str "utter_" ++ iname) ++ str "\n" ++ str "  - action: "
            ++ (str "utter_" ++ iname) ++ str "_" ++ natStr 1 ++ str "\n",
          intents := if s0.intents.any (fun p => p.isPrefixOf iname) then s0.intents
                     else s0.intents ++ [iname],
          nluSubs := s0.nluSubs ++ [(iname, iname)],
          intentName := iname,
          responseName := str "utter_" ++ iname,
          steps := 1,
          afterText := true } := by
    show processMessage lang s0 (buttonsMsg lang bs) = _
    rw [processMessage_buttons_fresh lang iname bs s0 hA hS hI hns hR]
  have eC : processMessages lang [buttonsMsg lang bs, textMsg lang [t]] s0
      = { s0 with
          responses := s0.responses ++ str "  " ++ (str "utter_" ++ iname) ++ str "_"
            ++ natStr 1 ++ str ":\n  - text: " ++ [sq] ++ buttonMarkup bs ++ closeQ
            ++ str "  - text: " ++ [sq] ++ format_text t ++ closeQ,
          rules := s0.rules ++ str "\n- rule: Respond to " ++ iname
            ++ str "\n  steps:\n  - intent: " ++ iname ++ str "\n  - action: "
            ++ (str "utter_" ++ iname) ++ str "\n" ++ str "  - action: "
            ++ (str "utter_" ++ iname) ++ str "_" ++ natStr 1 ++ str "\n",
          intents := if s0.intents.any (fun p => p.isPrefixOf iname) then s0.intents
                     else s0.intents ++ [iname],
          nluSubs := s0.nluSubs ++ [(iname, iname)],
          intentName := iname,
          responseName := str "utter_" ++ iname,
          steps := 1,
          afterText := true } := by
    show processMessage lang (processMessage lang s0 (buttonsMsg lang bs)) (textMsg lang [t]) = _
    rw [processMessage_buttons_fresh lang iname bs s0 hA hS hI hns hR, processMessage_text]
  exact ⟨⟨by rw [eA], by rw [eA], by rw [eA], by rw [eA]⟩,
    ⟨by rw [eB], by rw [eB], by rw [eB]⟩, ⟨by rw [eC], by rw [eC]⟩⟩

/-- Witness for C4 at the spec's concrete example (`info`, `Welcome`,
one `Visit` button). -/
theorem spec_C4_button_normalization_w :
    (processMessages (str "es") [textMsg (str "es") [str "Welcome"], buttonsMsg (str "es") btns1]
        s0c).responses
      = s0c.responses ++ str "  - text: " ++ [sq] ++ format_text (str "Welcome")
          ++ buttonMarkup btns1 ++ closeQ
    ∧ (processMessages (str "es") [buttonsMsg (str "es") btns1] s0c).rules
      = s0c.rules ++ str "\n- rule: Respond to " ++ str "info" ++ str "\n  steps:\n  - intent: "
          ++ str "info" ++ str "\n  - action: " ++ (str "utter_" ++ str "info") ++ str "\n"
          ++ str "  - action: " ++ (str "utter_" ++ str "info") ++ str "_" ++ natStr 1
          ++ str "\n" := by
  have h := spec_C4_button_normalization (str "es") (str "Welcome") (str "info") btns1 s0c
    rfl rfl rfl (by decide) (by decide)
  exact ⟨h.1.1, h.2.1.2.1⟩

end Migrator
